import Mathlib

/-!
Shallow embedding of the automatic reframing engine of `src/app/engine.py`
(`smart_follow_crop` and its helpers).  Python floats are modelled as exact
rationals, Python ints as `Int`/`Nat`; the external collaborators (OpenCV
decode/encode, the Haar cascade detector, ffmpeg audio extraction) appear as
oracle inputs: each frame carries the detector output and a grayscale image
as a function, and the audio-analysis result arrives as an `Except` value.
-/

namespace JusClipIt

/-- Python built-in `round`: round half to even (banker rounding). -/
def pyRound (q : ℚ) : ℤ :=
  if q - ⌊q⌋ < 1/2 then ⌊q⌋
  else if 1/2 < q - ⌊q⌋ then ⌊q⌋ + 1
  else if ⌊q⌋ % 2 = 0 then ⌊q⌋ else ⌊q⌋ + 1

/-- Python `int()` on a float: truncation toward zero. -/
def pyInt (q : ℚ) : ℤ := if 0 ≤ q then ⌊q⌋ else ⌈q⌉

/-- Python `(n // 2) * 2` (floor division) used to force even output sizes. -/
def pyEven (n : ℤ) : ℤ := (Int.fdiv n 2) * 2

/-- A face box returned by the detector, in source-pixel coordinates
(`(x, y, w, h)` as in `_faces_detect`). -/
structure Box where
  x : ℚ
  y : ℚ
  w : ℚ
  h : ℚ
deriving DecidableEq

/-- Center of a face box as computed in `_pick_face`
(`fx = x + w/2`, `fy = y + h/2`). -/
def boxCenter (b : Box) : ℚ × ℚ := (b.x + b.w / 2, b.y + b.h / 2)

/-- One decoded source frame: the detector output for this frame (the
result of `_faces_detect`, an external oracle) and the full-resolution
grayscale image `gray_full` as a pixel function (row, column) ↦ value. -/
structure Frame where
  faces : List Box
  gray : ℤ → ℤ → ℚ

/-- The parameters of `smart_follow_crop` together with the input-video
properties read from the capture (`in_w`, `in_h`, `fps`). -/
structure Cfg where
  in_w : ℤ
  in_h : ℤ
  fps : ℚ
  out_w : ℤ
  out_h : ℤ
  targetAspect : String
  sample_fps : ℤ
  smooth : ℚ
  hold_frames : ℤ
  deadzone_px : ℤ
  min_switch_frames : ℤ
  max_move_px_per_sec : ℚ

/-- Target aspect ratio dispatch (engine.py lines 297-304). -/
def targetRatio (cfg : Cfg) : ℚ :=
  if cfg.targetAspect = "9:16" then 9/16
  else if cfg.targetAspect = "1:1" then 1
  else if cfg.targetAspect = "16:9" then 16/9
  else if cfg.out_h ≠ 0 then (cfg.out_w : ℚ) / (cfg.out_h : ℚ)
  else (cfg.in_w : ℚ) / (cfg.in_h : ℚ)

/-- Fixed crop size derivation (engine.py lines 306-312): if the source
aspect exceeds the target ratio the crop keeps the full height, otherwise
the full width. -/
def cropSizeRaw (in_w in_h : ℤ) (target_ar : ℚ) : ℤ × ℤ :=
  if (in_w : ℚ) / (in_h : ℚ) > target_ar then
    (pyRound ((in_h : ℚ) * target_ar), in_h)
  else
    (in_w, pyRound ((in_w : ℚ) / target_ar))

/-- Crop size for a configuration. -/
def cropSize (cfg : Cfg) : ℤ × ℤ := cropSizeRaw cfg.in_w cfg.in_h (targetRatio cfg)

/-- Insertion of one element into a sorted rational list. -/
def insertSorted (x : ℚ) : List ℚ → List ℚ
  | [] => [x]
  | y :: ys => if x ≤ y then x :: y :: ys else y :: insertSorted x ys

/-- Insertion sort on rationals (ascending). -/
def sortQ : List ℚ → List ℚ
  | [] => []
  | x :: xs => insertSorted x (sortQ xs)

/-- Model of `numpy.percentile` with the default linear interpolation
(`numpy.median` is the 50th percentile under the same rule). -/
def percentileNp (l : List ℚ) (p : ℚ) : ℚ :=
  let s := sortQ l
  if s.length = 0 then 0
  else
    let pos := p / 100 * ((s.length : ℚ) - 1)
    let i := (⌊pos⌋).toNat
    let a := s.getD i 0
    let b := s.getD (i + 1) a
    a + (pos - (i : ℚ)) * (b - a)

/-- Function `_rms_threshold` (engine.py lines 250-255):
`max(0.015, min(0.08, median*2.2 + p90*0.25))`, `0.02` for an empty signal. -/
def rms_threshold (rms : List ℚ) : ℚ :=
  if rms.length = 0 then 2/100
  else max (15/1000) (min (8/100) (percentileNp rms 50 * (22/10) + percentileNp rms 90 * (1/4)))

/-- The audio lookup index of `_pick_face` (engine.py line 425):
`rms_idx = min(len(rms) - 1, frame_idx)`. -/
def rmsIndex (n frame_idx : ℕ) : ℕ := min (n - 1) frame_idx

/-- The mutable per-clip tracking state of the `smart_follow_crop` frame
loop: smoothed center `cx_s, cy_s`, last accepted target `last_det`, the
`hold` and `frames_since_switch` counters, the frame index, and the
previous grayscale frame kept for motion scoring. -/
structure LoopState where
  cx : ℚ
  cy : ℚ
  last_det : Option (ℚ × ℚ)
  hold : ℤ
  fss : ℤ
  idx : ℕ
  prevGray : Option (ℤ → ℤ → ℚ)

/-- Initial tracking state (engine.py lines 324-330): center of the frame,
no target, `hold = 0`, `frames_since_switch = 999999`. -/
def initState (cfg : Cfg) : LoopState :=
  { cx := (cfg.in_w : ℚ) / 2, cy := (cfg.in_h : ℚ) / 2, last_det := none,
    hold := 0, fss := 999999, idx := 0, prevGray := none }

/-- Detection sampling stride (engine.py line 322):
`step = max(1, int(round(fps / max(1, sample_fps))))`. -/
def strideN (cfg : Cfg) : ℕ :=
  (max 1 (pyRound (cfg.fps / ((max 1 cfg.sample_fps : ℤ) : ℚ)))).toNat

/-- Sum of absolute pixel differences of two images over the rectangle with
top-left `(x0, y0)`, width `w` and height `h`. -/
def sumAbsDiff (cur prv : ℤ → ℤ → ℚ) (x0 y0 : ℤ) (w h : ℕ) : ℚ :=
  ((List.range h).map (fun dy =>
    ((List.range w).map (fun dx =>
      |cur (y0 + dy) (x0 + dx) - prv (y0 + dy) (x0 + dx)|)).sum)).sum

/-- Function `_mouth_motion_score` (engine.py lines 393-412): mean absolute pixel
difference against the previous frame over the lower 45% of the face box,
0 when there is no previous frame or the clipped region is empty. -/
def mouth_motion_score (cfg : Cfg) (gray : ℤ → ℤ → ℚ) (prev : Option (ℤ → ℤ → ℚ))
    (b : Box) : ℚ :=
  match prev with
  | none => 0
  | some pg =>
    let mx0 := pyInt (max 0 b.x)
    let my0 := pyInt (max 0 (b.y + b.h * (55/100)))
    let mx1 := pyInt (min (cfg.in_w : ℚ) (b.x + b.w))
    let my1 := pyInt (min (cfg.in_h : ℚ) (b.y + b.h))
    if mx1 ≤ mx0 ∨ my1 ≤ my0 then 0
    else
      sumAbsDiff gray pg mx0 my0 (mx1 - mx0).toNat (my1 - my0).toNat /
        (((mx1 - mx0).toNat : ℚ) * ((my1 - my0).toNat : ℚ))

/-- The score `_pick_face` assigns to one candidate box (engine.py lines
419-433): in speaker mode (audio signal and threshold available)
`mouth_motion * (8 if voiced else 2) + area * 0.00002`, otherwise the raw
area; in both cases minus the stability penalty
`0.0008 * ((fx - cx_s)^2 + (fy - cy_s)^2)`. -/
def faceScore (cfg : Cfg) (mode : String) (rms : Option (List ℚ)) (thr : Option ℚ)
    (s : LoopState) (fr : Frame) (b : Box) : ℚ :=
  let fx := b.x + b.w / 2
  let fy := b.y + b.h / 2
  let area := b.w * b.h
  let base :=
    if mode = "speaker" ∧ rms.isSome ∧ thr.isSome then
      let r := rms.getD []
      let t := thr.getD 0
      let voiced := t ≤ r.getD (rmsIndex r.length s.idx) 0
      let mot := mouth_motion_score cfg fr.gray s.prevGray b
      mot * (if voiced then 8 else 2) + area * (2/100000)
    else area
  base - (8/10000) * ((fx - s.cx) ^ 2 + (fy - s.cy) ^ 2)

/-- The float literal `-1e18` initializing `best_score` in `_pick_face`. -/
def sentinel : ℚ := -(10 ^ 18)

/-- The accumulator loop of `_pick_face`: keep the first candidate whose
score strictly exceeds the running best score. -/
def pickGo (score : Box → ℚ) : List Box → Option (ℚ × ℚ) → ℚ → Option (ℚ × ℚ)
  | [], best, _ => best
  | b :: rest, best, bestScore =>
    if bestScore < score b then pickGo score rest (some (boxCenter b)) (score b)
    else pickGo score rest best bestScore

/-- Function `_pick_face` (engine.py lines 414-439). -/
def pick_face (cfg : Cfg) (mode : String) (rms : Option (List ℚ)) (thr : Option ℚ)
    (s : LoopState) (fr : Frame) : Option (ℚ × ℚ) :=
  pickGo (faceScore cfg mode rms thr s fr) fr.faces none sentinel

/-- The per-axis smoothing update (engine.py lines 464-483): deadzone on
the delta, exponential step `c + smooth * d`, then the speed clamp written
as `np.clip(new, new - max_per_frame, new + max_per_frame)`. -/
def smoothAxis (sm : ℚ) (dz : ℤ) (m : ℚ) (t c : ℚ) : ℚ :=
  let d := t - c
  let d2 := if |d| < (dz : ℚ) then 0 else d
  let c2 := c + sm * d2
  min (max c2 (c2 - m)) (c2 + m)

/-- Definition `max_per_frame = max_move_px_per_sec / max(1.0, fps)` (engine.py line 481). -/
def maxPerFrame (cfg : Cfg) : ℚ := cfg.max_move_px_per_sec / max 1 cfg.fps

/-- The target-selection half of one loop iteration (engine.py lines
449-461): on a sampled frame, either accept a candidate (when faces were
found, `hold ≤ 0`, a candidate was picked and
`frames_since_switch ≥ min_switch_frames`) or decrement `hold` toward 0. -/
def selectPhase (cfg : Cfg) (mode : String) (rms : Option (List ℚ)) (thr : Option ℚ)
    (s : LoopState) (fr : Frame) : LoopState :=
  if s.idx % strideN cfg = 0 then
    if fr.faces ≠ [] ∧ s.hold ≤ 0 then
      match pick_face cfg mode rms thr s fr with
      | some c =>
        if cfg.min_switch_frames ≤ s.fss then
          { s with last_det := some c, hold := cfg.hold_frames, fss := 0 }
        else s
      | none => s
    else { s with hold := max 0 (s.hold - 1) }
  else s

/-- The smoothing half of one loop iteration (engine.py lines 463-483):
when a target exists, move each axis of the smoothed center by
`smoothAxis`. -/
def smoothPhase (cfg : Cfg) (s : LoopState) : LoopState :=
  match s.last_det with
  | none => s
  | some t =>
    { s with cx := smoothAxis cfg.smooth cfg.deadzone_px (maxPerFrame cfg) t.1 s.cx,
             cy := smoothAxis cfg.smooth cfg.deadzone_px (maxPerFrame cfg) t.2 s.cy }

/-- One full iteration of the frame loop, state part (selection, smoothing,
then `prev_gray_full = gray_full`, `frame_idx += 1`,
`frames_since_switch += 1`; engine.py lines 442-497). -/
def stepState (cfg : Cfg) (mode : String) (rms : Option (List ℚ)) (thr : Option ℚ)
    (s : LoopState) (fr : Frame) : LoopState :=
  let s2 := smoothPhase cfg (selectPhase cfg mode rms thr s fr)
  { s2 with prevGray := some fr.gray, idx := s2.idx + 1, fss := s2.fss + 1 }

/-- Clamped crop origin on one axis (engine.py lines 486-489):
`max(0, min(dim - crop, int(round(c - crop/2))))`. -/
def clampOrigin (c : ℚ) (crop dim : ℤ) : ℤ :=
  max 0 (min (dim - crop) (pyRound (c - (crop : ℚ) / 2)))

/-- The crop origin emitted for one frame, computed from the smoothed
center after selection and smoothing (engine.py lines 485-489). -/
def stepOut (cfg : Cfg) (mode : String) (rms : Option (List ℚ)) (thr : Option ℚ)
    (s : LoopState) (fr : Frame) : ℤ × ℤ :=
  let s2 := smoothPhase cfg (selectPhase cfg mode rms thr s fr)
  (clampOrigin s2.cx (cropSize cfg).1 cfg.in_w, clampOrigin s2.cy (cropSize cfg).2 cfg.in_h)

/-- The frame loop: the list of crop origins emitted for a list of frames,
starting from state `s`. -/
def runLoop (cfg : Cfg) (mode : String) (rms : Option (List ℚ)) (thr : Option ℚ) :
    LoopState → List Frame → List (ℤ × ℤ)
  | _, [] => []
  | s, fr :: rest =>
    stepOut cfg mode rms thr s fr ::
      runLoop cfg mode rms thr (stepState cfg mode rms thr s fr) rest

/-- The tracking state entering frame `k` (the state after processing the
first `k` frames of the clip, starting from `initState`). -/
def stateAt (cfg : Cfg) (mode : String) (rms : Option (List ℚ)) (thr : Option ℚ)
    (frames : List Frame) : ℕ → LoopState
  | 0 => initState cfg
  | k + 1 =>
    match frames.get? k with
    | some fr => stepState cfg mode rms thr (stateAt cfg mode rms thr frames k) fr
    | none => stateAt cfg mode rms thr frames k

/-- The exact condition under which frame processing accepts a new tracked
target (the branch at engine.py lines 449-459): sampled frame, non-empty
detection, `hold ≤ 0`, a picked candidate, and
`frames_since_switch ≥ min_switch_frames`. -/
def acceptP (cfg : Cfg) (mode : String) (rms : Option (List ℚ)) (thr : Option ℚ)
    (s : LoopState) (fr : Frame) : Prop :=
  s.idx % strideN cfg = 0 ∧ fr.faces ≠ [] ∧ s.hold ≤ 0 ∧
    (pick_face cfg mode rms thr s fr).isSome = true ∧ cfg.min_switch_frames ≤ s.fss

instance instDecAcceptP (cfg : Cfg) (mode : String) (rms : Option (List ℚ))
    (thr : Option ℚ) (s : LoopState) (fr : Frame) :
    Decidable (acceptP cfg mode rms thr s fr) := by
  unfold acceptP; infer_instance

/-- Whether a target switch is accepted while processing frame `k` of the
clip. -/
def acceptsAt (cfg : Cfg) (mode : String) (rms : Option (List ℚ)) (thr : Option ℚ)
    (frames : List Frame) (k : ℕ) : Prop :=
  match frames.get? k with
  | some fr => acceptP cfg mode rms thr (stateAt cfg mode rms thr frames k) fr
  | none => False

instance instDecAcceptsAt (cfg : Cfg) (mode : String) (rms : Option (List ℚ))
    (thr : Option ℚ) (frames : List Frame) (k : ℕ) :
    Decidable (acceptsAt cfg mode rms thr frames k) := by
  unfold acceptsAt
  rcases frames.get? k with _ | fr
  · exact isFalse (fun h => h)
  · exact instDecAcceptP cfg mode rms thr (stateAt cfg mode rms thr frames k) fr

/-- The even-size normalization at the top of `smart_follow_crop`
(engine.py lines 282-283): `out_w = (int(out_w) // 2) * 2` and likewise
for the height. -/
def outCfg (cfg : Cfg) : Cfg :=
  { cfg with out_w := pyEven cfg.out_w, out_h := pyEven cfg.out_h }

/-- The speaker-mode audio setup of `smart_follow_crop` (engine.py lines
332-344): on success the RMS signal and its threshold are kept, on any
audio failure the mode degrades to `"face"` and both are cleared. -/
def audioInit (mode : String) (audio : Except String (List ℚ)) :
    String × Option (List ℚ) × Option ℚ :=
  if mode = "speaker" then
    match audio with
    | Except.ok rms => ("speaker", some rms, some (rms_threshold rms))
    | Except.error _ => ("face", none, none)
  else (mode, none, none)

/-- Function `smart_follow_crop` (engine.py lines 258-508) as a trajectory function:
given the capture properties (inside `cfg`), the requested mode, the result
of audio extraction/analysis, and the decoded frames with their detections,
produce the per-frame crop origins.  Decoding, cropping pixels, resizing
and muxing are external. -/
def smart_follow_crop (cfg : Cfg) (mode : String) (audio : Except String (List ℚ))
    (frames : List Frame) : List (ℤ × ℤ) :=
  let cfg2 := outCfg cfg
  let mrt := audioInit mode audio
  runLoop cfg2 mrt.1 mrt.2.1 mrt.2.2 (initState cfg2) frames

/-! Concrete objects used to instantiate the theorems below. -/

/-- A small concrete configuration (30 fps, sampled every frame,
`min_switch_frames = 2`, `hold_frames = 0`). -/
def cfgA : Cfg :=
  { in_w := 100, in_h := 100, fps := 30, out_w := 1080, out_h := 1920,
    targetAspect := "9:16", sample_fps := 30, smooth := 18/100, hold_frames := 0,
    deadzone_px := 28, min_switch_frames := 2, max_move_px_per_sec := 320 }

/-- A frame whose detector output is one face box at (40, 40) of size
10 by 10, over an all-black image. -/
def frA : Frame := { faces := [{ x := 40, y := 40, w := 10, h := 10 }], gray := fun _ _ => 0 }

/-- A frame with no detections. -/
def frEmpty : Frame := { faces := [], gray := fun _ _ => 0 }

/-- A three-frame clip with a face detected on every frame. -/
def framesA : List Frame := [frA, frA, frA]

/-- The default configuration of `smart_follow_crop` for a 1920 by 1080
30 fps source. -/
def cfg1920 : Cfg :=
  { in_w := 1920, in_h := 1080, fps := 30, out_w := 1080, out_h := 1920,
    targetAspect := "9:16", sample_fps := 10, smooth := 18/100, hold_frames := 24,
    deadzone_px := 28, min_switch_frames := 16, max_move_px_per_sec := 320 }

/-- A tracking state whose smoothed center sits at the origin while the
tracked target is 1000 pixels away on the x axis. -/
def sC1 : LoopState :=
  { cx := 0, cy := 0, last_det := some (1000, 0), hold := 0, fss := 5, idx := 1,
    prevGray := none }

/-- A tracking state whose tracked target is within the deadzone of the
smoothed center on both axes. -/
def sC5 : LoopState :=
  { cx := 50, cy := 50, last_det := some (60, 45), hold := 3, fss := 7, idx := 2,
    prevGray := none }

/-- A frame holding a single face box so remote that its stability penalty
drives the score below the `-1e18` sentinel of `_pick_face`. -/
def frFar : Frame :=
  { faces := [{ x := 10 ^ 11, y := 0, w := 1, h := 1 }], gray := fun _ _ => 0 }

/-- A frame with two faces, the second one larger (so in face mode the
second has the strictly larger score). -/
def frTwo : Frame :=
  { faces := [{ x := 40, y := 40, w := 10, h := 10 }, { x := 60, y := 40, w := 20, h := 20 }],
    gray := fun _ _ => 0 }

/-! Helper lemmas. -/

theorem pyRound_le (q : ℚ) : (pyRound q : ℚ) ≤ q + 1/2 := by
  have h1 : (⌊q⌋ : ℚ) ≤ q := Int.floor_le q
  have h2 : q < ⌊q⌋ + 1 := Int.lt_floor_add_one q
  unfold pyRound
  split_ifs <;> push_cast <;> linarith

theorem le_pyRound (q : ℚ) : q - 1/2 ≤ (pyRound q : ℚ) := by
  have h1 : (⌊q⌋ : ℚ) ≤ q := Int.floor_le q
  have h2 : q < ⌊q⌋ + 1 := Int.lt_floor_add_one q
  unfold pyRound
  split_ifs <;> push_cast <;> linarith

theorem pyRound_le_of_lt {q : ℚ} {n : ℤ} (h : q < n) : pyRound q ≤ n := by
  have h1 : (pyRound q : ℚ) ≤ q + 1/2 := pyRound_le q
  have h2 : (pyRound q : ℚ) < (n : ℚ) + 1 := by linarith
  have h3 : pyRound q < n + 1 := by exact_mod_cast h2
  omega

theorem pyRound_le_of_le {q : ℚ} {n : ℤ} (h : q ≤ n) : pyRound q ≤ n := by
  have h1 : (pyRound q : ℚ) ≤ q + 1/2 := pyRound_le q
  have h2 : (pyRound q : ℚ) < (n : ℚ) + 1 := by linarith
  have h3 : pyRound q < n + 1 := by exact_mod_cast h2
  omega

/-- For positive source dimensions the derived crop never exceeds the
source on either axis, whatever the target ratio. -/
theorem cropSizeRaw_le (in_w in_h : ℤ) (ar : ℚ) (hw : 0 < in_w) (hh : 0 < in_h) :
    (cropSizeRaw in_w in_h ar).1 ≤ in_w ∧ (cropSizeRaw in_w in_h ar).2 ≤ in_h := by
  have hhq : (0 : ℚ) < (in_h : ℚ) := by exact_mod_cast hh
  have hwq : (0 : ℚ) < (in_w : ℚ) := by exact_mod_cast hw
  unfold cropSizeRaw
  split_ifs with hgt
  · constructor
    · have : (in_h : ℚ) * ar < in_w := by
        have := (lt_div_iff₀ hhq).mp hgt
        linarith
      exact pyRound_le_of_lt this
    · exact le_refl _
  · push_neg at hgt
    have har : 0 < ar := lt_of_lt_of_le (div_pos hwq hhq) hgt
    constructor
    · exact le_refl _
    · have : (in_w : ℚ) / ar ≤ in_h := by
        rw [div_le_iff₀ har]
        have := (div_le_iff₀ hhq).mp hgt
        linarith [mul_comm ar (in_h : ℚ)]
      exact pyRound_le_of_le this

/-- The clamped origin always lands in `[0, dim - crop]` when the crop fits. -/
theorem clampOrigin_bounds (c : ℚ) (crop dim : ℤ) (h : crop ≤ dim) :
    0 ≤ clampOrigin c crop dim ∧ clampOrigin c crop dim ≤ dim - crop := by
  unfold clampOrigin
  exact ⟨le_max_left 0 _, max_le (by omega) (min_le_left _ _)⟩

theorem smoothPhase_hold (cfg : Cfg) (s : LoopState) :
    (smoothPhase cfg s).hold = s.hold := by
  cases h : s.last_det <;> simp [smoothPhase, h]

theorem smoothPhase_fss (cfg : Cfg) (s : LoopState) :
    (smoothPhase cfg s).fss = s.fss := by
  cases h : s.last_det <;> simp [smoothPhase, h]

theorem smoothPhase_idx (cfg : Cfg) (s : LoopState) :
    (smoothPhase cfg s).idx = s.idx := by
  cases h : s.last_det <;> simp [smoothPhase, h]

theorem smoothPhase_last_det (cfg : Cfg) (s : LoopState) :
    (smoothPhase cfg s).last_det = s.last_det := by
  cases h : s.last_det <;> simp [smoothPhase, h]

theorem selectPhase_idx (cfg : Cfg) (mode : String) (rms : Option (List ℚ)) (thr : Option ℚ)
    (s : LoopState) (fr : Frame) :
    (selectPhase cfg mode rms thr s fr).idx = s.idx := by
  by_cases h1 : s.idx % strideN cfg = 0
  · by_cases h2 : fr.faces ≠ [] ∧ s.hold ≤ 0
    · cases hp : pick_face cfg mode rms thr s fr with
      | none => simp [selectPhase, h1, h2.1, h2.2, hp]
      | some c =>
        by_cases h3 : cfg.min_switch_frames ≤ s.fss
        · simp [selectPhase, h1, h2.1, h2.2, hp, h3]
        · simp [selectPhase, h1, h2.1, h2.2, hp, h3]
    · simp [selectPhase, h1, h2]
  · simp [selectPhase, h1]

theorem selectPhase_fss (cfg : Cfg) (mode : String) (rms : Option (List ℚ)) (thr : Option ℚ)
    (s : LoopState) (fr : Frame) :
    (selectPhase cfg mode rms thr s fr).fss =
      if acceptP cfg mode rms thr s fr then 0 else s.fss := by
  by_cases h1 : s.idx % strideN cfg = 0
  · by_cases h2 : fr.faces ≠ [] ∧ s.hold ≤ 0
    · cases hp : pick_face cfg mode rms thr s fr with
      | none =>
        have hna : ¬ acceptP cfg mode rms thr s fr := by
          intro h
          have h4 := h.2.2.2.1
          rw [hp] at h4
          exact absurd h4 (by simp)
        simp [selectPhase, h1, h2.1, h2.2, hp, hna]
      | some c =>
        by_cases h3 : cfg.min_switch_frames ≤ s.fss
        · have ha : acceptP cfg mode rms thr s fr :=
            ⟨h1, h2.1, h2.2, by rw [hp]; rfl, h3⟩
          simp [selectPhase, h1, h2.1, h2.2, hp, h3, ha]
        · have hna : ¬ acceptP cfg mode rms thr s fr := fun h => h3 h.2.2.2.2
          simp [selectPhase, h1, h2.1, h2.2, hp, h3, hna]
    · have hna : ¬ acceptP cfg mode rms thr s fr := fun h => h2 ⟨h.2.1, h.2.2.1⟩
      simp [selectPhase, h1, h2, hna]
  · have hna : ¬ acceptP cfg mode rms thr s fr := fun h => h1 h.1
    simp [selectPhase, h1, hna]

theorem selectPhase_hold_sampled_accept (cfg : Cfg) (mode : String) (rms : Option (List ℚ))
    (thr : Option ℚ) (s : LoopState) (fr : Frame)
    (ha : acceptP cfg mode rms thr s fr) :
    (selectPhase cfg mode rms thr s fr).hold = cfg.hold_frames := by
  obtain ⟨h1, h2a, h2b, h4, h3⟩ := ha
  cases hp : pick_face cfg mode rms thr s fr with
  | none => rw [hp] at h4; exact absurd h4 (by simp)
  | some c => simp [selectPhase, h1, h2a, h2b, hp, h3]

theorem selectPhase_hold_sampled_noaccept (cfg : Cfg) (mode : String) (rms : Option (List ℚ))
    (thr : Option ℚ) (s : LoopState) (fr : Frame) (hs : 0 ≤ s.hold)
    (h1 : s.idx % strideN cfg = 0) (hna : ¬ acceptP cfg mode rms thr s fr) :
    (selectPhase cfg mode rms thr s fr).hold = max 0 (s.hold - 1) := by
  by_cases h2 : fr.faces ≠ [] ∧ s.hold ≤ 0
  · have hz : s.hold = 0 := le_antisymm h2.2 hs
    cases hp : pick_face cfg mode rms thr s fr with
    | none => simp [selectPhase, h1, h2.1, h2.2, hp, hz]
    | some c =>
      by_cases h3 : cfg.min_switch_frames ≤ s.fss
      · exact absurd ⟨h1, h2.1, h2.2, by rw [hp]; rfl, h3⟩ hna
      · simp [selectPhase, h1, h2.1, h2.2, hp, h3, hz]
  · simp [selectPhase, h1, h2]

theorem selectPhase_hold_unsampled (cfg : Cfg) (mode : String) (rms : Option (List ℚ))
    (thr : Option ℚ) (s : LoopState) (fr : Frame)
    (h1 : ¬ s.idx % strideN cfg = 0) :
    (selectPhase cfg mode rms thr s fr).hold = s.hold := by
  simp [selectPhase, h1]

theorem selectPhase_hold_cases (cfg : Cfg) (mode : String) (rms : Option (List ℚ))
    (thr : Option ℚ) (s : LoopState) (fr : Frame) :
    (selectPhase cfg mode rms thr s fr).hold = s.hold ∨
    (selectPhase cfg mode rms thr s fr).hold = cfg.hold_frames ∨
    (selectPhase cfg mode rms thr s fr).hold = max 0 (s.hold - 1) := by
  by_cases h1 : s.idx % strideN cfg = 0
  · by_cases h2 : fr.faces ≠ [] ∧ s.hold ≤ 0
    · cases hp : pick_face cfg mode rms thr s fr with
      | none => left; simp [selectPhase, h1, h2.1, h2.2, hp]
      | some c =>
        by_cases h3 : cfg.min_switch_frames ≤ s.fss
        · right; left; simp [selectPhase, h1, h2.1, h2.2, hp, h3]
        · left; simp [selectPhase, h1, h2.1, h2.2, hp, h3]
    · right; right; simp [selectPhase, h1, h2]
  · left; simp [selectPhase, h1]

theorem selectPhase_last_det_cases (cfg : Cfg) (mode : String) (rms : Option (List ℚ))
    (thr : Option ℚ) (s : LoopState) (fr : Frame) :
    (selectPhase cfg mode rms thr s fr).last_det = s.last_det ∨
    ∃ c, (selectPhase cfg mode rms thr s fr).last_det = some c := by
  by_cases h1 : s.idx % strideN cfg = 0
  · by_cases h2 : fr.faces ≠ [] ∧ s.hold ≤ 0
    · cases hp : pick_face cfg mode rms thr s fr with
      | none => left; simp [selectPhase, h1, h2.1, h2.2, hp]
      | some c =>
        by_cases h3 : cfg.min_switch_frames ≤ s.fss
        · right; exact ⟨c, by simp [selectPhase, h1, h2.1, h2.2, hp, h3]⟩
        · left; simp [selectPhase, h1, h2.1, h2.2, hp, h3]
    · left; simp [selectPhase, h1, h2]
  · left; simp [selectPhase, h1]

theorem selectPhase_last_det_empty (cfg : Cfg) (mode : String) (rms : Option (List ℚ))
    (thr : Option ℚ) (s : LoopState) (fr : Frame) (hfe : fr.faces = []) :
    (selectPhase cfg mode rms thr s fr).last_det = s.last_det := by
  by_cases h1 : s.idx % strideN cfg = 0
  · have h2 : ¬ (fr.faces ≠ [] ∧ s.hold ≤ 0) := fun h => h.1 hfe
    simp [selectPhase, h1, h2]
  · simp [selectPhase, h1]

theorem stepState_fss (cfg : Cfg) (mode : String) (rms : Option (List ℚ)) (thr : Option ℚ)
    (s : LoopState) (fr : Frame) :
    (stepState cfg mode rms thr s fr).fss =
      if acceptP cfg mode rms thr s fr then 1 else s.fss + 1 := by
  show (smoothPhase cfg (selectPhase cfg mode rms thr s fr)).fss + 1 = _
  rw [smoothPhase_fss, selectPhase_fss]
  split_ifs <;> omega

theorem stepState_hold (cfg : Cfg) (mode : String) (rms : Option (List ℚ)) (thr : Option ℚ)
    (s : LoopState) (fr : Frame) :
    (stepState cfg mode rms thr s fr).hold = (selectPhase cfg mode rms thr s fr).hold := by
  show (smoothPhase cfg (selectPhase cfg mode rms thr s fr)).hold = _
  rw [smoothPhase_hold]

theorem stepState_idx (cfg : Cfg) (mode : String) (rms : Option (List ℚ)) (thr : Option ℚ)
    (s : LoopState) (fr : Frame) :
    (stepState cfg mode rms thr s fr).idx = s.idx + 1 := by
  show (smoothPhase cfg (selectPhase cfg mode rms thr s fr)).idx + 1 = _
  rw [smoothPhase_idx, selectPhase_idx]

theorem stepState_last_det (cfg : Cfg) (mode : String) (rms : Option (List ℚ)) (thr : Option ℚ)
    (s : LoopState) (fr : Frame) :
    (stepState cfg mode rms thr s fr).last_det = (selectPhase cfg mode rms thr s fr).last_det := by
  show (smoothPhase cfg (selectPhase cfg mode rms thr s fr)).last_det = _
  rw [smoothPhase_last_det]

theorem stateAt_succ_of_get (cfg : Cfg) (mode : String) (rms : Option (List ℚ))
    (thr : Option ℚ) (frames : List Frame) (k : ℕ) (fr : Frame)
    (hfr : frames.get? k = some fr) :
    stateAt cfg mode rms thr frames (k + 1) =
      stepState cfg mode rms thr (stateAt cfg mode rms thr frames k) fr := by
  conv_lhs => unfold stateAt
  rw [hfr]

theorem acceptsAt_iff_of_get (cfg : Cfg) (mode : String) (rms : Option (List ℚ))
    (thr : Option ℚ) (frames : List Frame) (k : ℕ) (fr : Frame)
    (hfr : frames.get? k = some fr) :
    acceptsAt cfg mode rms thr frames k ↔
      acceptP cfg mode rms thr (stateAt cfg mode rms thr frames k) fr := by
  unfold acceptsAt
  rw [hfr]

theorem acceptsAt_lt_length (cfg : Cfg) (mode : String) (rms : Option (List ℚ))
    (thr : Option ℚ) (frames : List Frame) (k : ℕ)
    (h : acceptsAt cfg mode rms thr frames k) : k < frames.length := by
  by_contra hk
  push_neg at hk
  have hn : frames.get? k = none := List.get?_eq_none.mpr hk
  unfold acceptsAt at h
  rw [hn] at h
  exact h

theorem stateAt_idx (cfg : Cfg) (mode : String) (rms : Option (List ℚ)) (thr : Option ℚ)
    (frames : List Frame) (k : ℕ) (hk : k ≤ frames.length) :
    (stateAt cfg mode rms thr frames k).idx = k := by
  induction k with
  | zero => rfl
  | succ k ih =>
    have hk' : k < frames.length := by omega
    have hfr : frames.get? k = some (frames.get ⟨k, hk'⟩) := List.get?_eq_get hk'
    rw [stateAt_succ_of_get cfg mode rms thr frames k _ hfr, stepState_idx,
      ih (by omega)]

theorem stateAt_hold_nonneg (cfg : Cfg) (mode : String) (rms : Option (List ℚ))
    (thr : Option ℚ) (frames : List Frame) (hhf : 0 ≤ cfg.hold_frames) (k : ℕ) :
    0 ≤ (stateAt cfg mode rms thr frames k).hold := by
  induction k with
  | zero => simp [stateAt, initState]
  | succ k ih =>
    cases hfr : frames.get? k with
    | none =>
      unfold stateAt
      rw [hfr]
      exact ih
    | some fr =>
      rw [stateAt_succ_of_get cfg mode rms thr frames k fr hfr, stepState_hold]
      rcases selectPhase_hold_cases cfg mode rms thr (stateAt cfg mode rms thr frames k) fr
        with h | h | h <;> rw [h] <;> omega

theorem fss_between (cfg : Cfg) (mode : String) (rms : Option (List ℚ)) (thr : Option ℚ)
    (frames : List Frame) (a b : ℕ) (hab : a ≤ b) (hbl : b ≤ frames.length)
    (hno : ∀ k, a ≤ k → k < b → ¬ acceptsAt cfg mode rms thr frames k) :
    (stateAt cfg mode rms thr frames b).fss =
      (stateAt cfg mode rms thr frames a).fss + ((b - a : ℕ) : ℤ) := by
  induction b, hab using Nat.le_induction with
  | base => simp
  | succ b hab ih =>
    have hb : b < frames.length := by omega
    have hfr : frames.get? b = some (frames.get ⟨b, hb⟩) := List.get?_eq_get hb
    have hnacc : ¬ acceptP cfg mode rms thr (stateAt cfg mode rms thr frames b)
        (frames.get ⟨b, hb⟩) := by
      intro hp
      exact hno b hab (by omega)
        ((acceptsAt_iff_of_get cfg mode rms thr frames b _ hfr).mpr hp)
    rw [stateAt_succ_of_get cfg mode rms thr frames b _ hfr, stepState_fss, if_neg hnacc,
      ih (by omega) (fun k hk1 hk2 => hno k hk1 (by omega))]
    have hcast : ((b + 1 - a : ℕ) : ℤ) = ((b - a : ℕ) : ℤ) + 1 := by omega
    omega

theorem stateAt_last_det_mono (cfg : Cfg) (mode : String) (rms : Option (List ℚ))
    (thr : Option ℚ) (frames : List Frame) (k k' : ℕ) (hkk : k ≤ k')
    (h : (stateAt cfg mode rms thr frames k).last_det ≠ none) :
    (stateAt cfg mode rms thr frames k').last_det ≠ none := by
  induction k', hkk using Nat.le_induction with
  | base => exact h
  | succ b hab ih =>
    cases hfr : frames.get? b with
    | none =>
      unfold stateAt
      rw [hfr]
      exact ih
    | some fr =>
      rw [stateAt_succ_of_get cfg mode rms thr frames b fr hfr, stepState_last_det]
      rcases selectPhase_last_det_cases cfg mode rms thr (stateAt cfg mode rms thr frames b) fr
        with hc | ⟨c, hc⟩
      · rw [hc]; exact ih
      · rw [hc]; exact Option.some_ne_none c

theorem smoothAxis_deadzone (sm : ℚ) (dz : ℤ) (m t c : ℚ) (hm : 0 ≤ m)
    (h : |t - c| < (dz : ℚ)) : smoothAxis sm dz m t c = c := by
  simp only [smoothAxis]
  rw [if_pos h, mul_zero, add_zero]
  have h1 : max c (c - m) = c := max_eq_left (by linarith)
  rw [h1]
  exact min_eq_left (by linarith)

theorem pickGo_stay (f : Box → ℚ) (l : List Box) (best : Option (ℚ × ℚ)) (bs : ℚ)
    (h : ∀ b ∈ l, f b ≤ bs) : pickGo f l best bs = best := by
  induction l with
  | nil => rfl
  | cons b rest ih =>
    rw [pickGo, if_neg (not_lt.mpr (h b (by simp)))]
    exact ih (fun x hx => h x (by simp [hx]))

theorem pickGo_argmax (f : Box → ℚ) (l : List Box) (best : Option (ℚ × ℚ)) (bs : ℚ)
    (h : ∃ b ∈ l, bs < f b) :
    ∃ i, ∃ hi : i < l.length, pickGo f l best bs = some (boxCenter (l.get ⟨i, hi⟩)) ∧
      bs < f (l.get ⟨i, hi⟩) ∧
      (∀ j (hj : j < l.length), f (l.get ⟨j, hj⟩) ≤ f (l.get ⟨i, hi⟩)) ∧
      (∀ j (hj : j < l.length), j < i → f (l.get ⟨j, hj⟩) < f (l.get ⟨i, hi⟩)) := by
  induction l generalizing best bs with
  | nil => simp at h
  | cons b rest ih =>
    by_cases hb : bs < f b
    · by_cases hr : ∃ x ∈ rest, f b < f x
      · obtain ⟨i, hi, heq, hgt, hmax, hfirst⟩ := ih (some (boxCenter b)) (f b) hr
        refine ⟨i + 1, Nat.succ_lt_succ hi, ?_, ?_, ?_, ?_⟩
        · rw [pickGo, if_pos hb]
          simpa using heq
        · simpa using lt_trans hb hgt
        · intro j hj
          cases j with
          | zero => simpa using le_of_lt hgt
          | succ j => simpa using hmax j (by simpa using hj)
        · intro j hj hji
          cases j with
          | zero => simpa using hgt
          | succ j => simpa using hfirst j (by simpa using hj) (by omega)
      · push_neg at hr
        refine ⟨0, by simp, ?_, by simpa using hb, ?_, ?_⟩
        · rw [pickGo, if_pos hb]
          simpa using pickGo_stay f rest (some (boxCenter b)) (f b) hr
        · intro j hj
          cases j with
          | zero => simp
          | succ j =>
            simpa using hr (rest.get ⟨j, by simpa using hj⟩) (rest.get_mem _ _)
        · intro j hj hji
          omega
    · obtain ⟨x, hx, hlt⟩ := h
      have hxrest : x ∈ rest := by
        rcases List.mem_cons.mp hx with rfl | hxr
        · exact absurd hlt hb
        · exact hxr
      obtain ⟨i, hi, heq, hgt, hmax, hfirst⟩ := ih best bs ⟨x, hxrest, hlt⟩
      refine ⟨i + 1, Nat.succ_lt_succ hi, ?_, ?_, ?_, ?_⟩
      · rw [pickGo, if_neg hb]
        simpa using heq
      · simpa using hgt
      · intro j hj
        cases j with
        | zero =>
          simp only [List.get_cons_zero, List.get_cons_succ]
          exact le_of_lt (lt_of_le_of_lt (not_lt.mp hb) hgt)
        | succ j => simpa using hmax j (by simpa using hj)
      · intro j hj hji
        cases j with
        | zero =>
          simp only [List.get_cons_zero, List.get_cons_succ]
          exact lt_of_le_of_lt (not_lt.mp hb) hgt
        | succ j => simpa using hfirst j (by simpa using hj) (by omega)

end JusClipIt

namespace JusClipIt

/-- Every origin emitted by the frame loop lies inside the source, for any
start state and any frames. -/
theorem runLoop_mem_bounds (cfg : Cfg) (mode : String) (rms : Option (List ℚ))
    (thr : Option ℚ) (hw : 0 < cfg.in_w) (hh : 0 < cfg.in_h) (s : LoopState)
    (frames : List Frame) :
    ∀ p ∈ runLoop cfg mode rms thr s frames,
      0 ≤ p.1 ∧ p.1 ≤ cfg.in_w - (cropSize cfg).1 ∧
      0 ≤ p.2 ∧ p.2 ≤ cfg.in_h - (cropSize cfg).2 := by
  induction frames generalizing s with
  | nil => intro p hp; simp [runLoop] at hp
  | cons fr rest ih =>
    intro p hp
    rw [runLoop] at hp
    rcases List.mem_cons.mp hp with rfl | hp
    · have hcw : (cropSize cfg).1 ≤ cfg.in_w :=
        (cropSizeRaw_le cfg.in_w cfg.in_h (targetRatio cfg) hw hh).1
      have hch : (cropSize cfg).2 ≤ cfg.in_h :=
        (cropSizeRaw_le cfg.in_w cfg.in_h (targetRatio cfg) hw hh).2
      simp only [stepOut]
      exact ⟨(clampOrigin_bounds _ _ _ hcw).1, (clampOrigin_bounds _ _ _ hcw).2,
        (clampOrigin_bounds _ _ _ hch).1, (clampOrigin_bounds _ _ _ hch).2⟩
    · exact ih (stepState cfg mode rms thr s fr) p hp


/-! Claim theorems. -/

/-- Claim C1 (refuted by the code, documenting the defect): the per-frame
speed clamp of `smart_follow_crop` is written as
`np.clip(cx_s, cx_s - max_per_frame, cx_s + max_per_frame)` on the already
updated center, which is the identity; with the default parameters
(fps 30, `max_move_px_per_sec = 320`, `smooth = 0.18`) a target 1000 px
away moves the smoothed center 180 px in a single frame, far beyond the
advertised `320 / 30` px bound. -/
theorem c1_speed_clamp_noop :
    maxPerFrame cfg1920 = 32/3 ∧
    (smoothPhase cfg1920 sC1).cx - sC1.cx = 180 ∧
    ¬ |(smoothPhase cfg1920 sC1).cx - sC1.cx| ≤ maxPerFrame cfg1920 := by
  with_unfolding_all decide

/-- Claim C2: for positive source dimensions, every crop origin emitted by
`smart_follow_crop` satisfies `0 ≤ x0 ≤ in_w - crop_w` and
`0 ≤ y0 ≤ in_h - crop_h`, so the fixed-size crop rectangle lies fully
inside the source frame. -/
theorem c2_crop_origin_in_bounds (cfg : Cfg) (mode : String)
    (audio : Except String (List ℚ)) (frames : List Frame)
    (hw : 0 < cfg.in_w) (hh : 0 < cfg.in_h) :
    ∀ p ∈ smart_follow_crop cfg mode audio frames,
      0 ≤ p.1 ∧ p.1 ≤ cfg.in_w - (cropSize (outCfg cfg)).1 ∧
      0 ≤ p.2 ∧ p.2 ≤ cfg.in_h - (cropSize (outCfg cfg)).2 :=
  runLoop_mem_bounds (outCfg cfg) (audioInit mode audio).1 (audioInit mode audio).2.1
    (audioInit mode audio).2.2 hw hh (initState (outCfg cfg)) frames

/-- Witness for C2 at a concrete configuration and clip. -/
theorem c2_crop_origin_in_bounds_witness :
    (0 < cfgA.in_w ∧ 0 < cfgA.in_h) ∧
    ∀ p ∈ smart_follow_crop cfgA "face" (Except.ok []) framesA,
      0 ≤ p.1 ∧ p.1 ≤ cfgA.in_w - (cropSize (outCfg cfgA)).1 ∧
      0 ≤ p.2 ∧ p.2 ≤ cfgA.in_h - (cropSize (outCfg cfgA)).2 :=
  ⟨⟨by decide, by decide⟩,
    c2_crop_origin_in_bounds cfgA "face" (Except.ok []) framesA (by decide) (by decide)⟩

/-- Claim C3: a switch is accepted only with
`frames_since_switch ≥ min_switch_frames`; acceptance resets the counter
(so it reads 1 after the accepting frame ends) and every other frame
increments it by exactly 1; consequently two consecutive accepted switches
at frames `i < j` satisfy `j - i ≥ min_switch_frames`. -/
theorem c3_min_switch_interval (cfg : Cfg) (mode : String) (rms : Option (List ℚ))
    (thr : Option ℚ) (frames : List Frame) (i j : ℕ) (s : LoopState) (fr : Frame)
    (hij : i < j) (hi : acceptsAt cfg mode rms thr frames i)
    (hj : acceptsAt cfg mode rms thr frames j)
    (hno : ∀ k, i < k → k < j → ¬ acceptsAt cfg mode rms thr frames k) :
    cfg.min_switch_frames ≤ (j : ℤ) - (i : ℤ) ∧
    (acceptP cfg mode rms thr s fr → (stepState cfg mode rms thr s fr).fss = 1) ∧
    (¬ acceptP cfg mode rms thr s fr →
      (stepState cfg mode rms thr s fr).fss = s.fss + 1) := by
  refine ⟨?_, fun ha => by rw [stepState_fss, if_pos ha],
    fun hna => by rw [stepState_fss, if_neg hna]⟩
  have hjl : j < frames.length := acceptsAt_lt_length cfg mode rms thr frames j hj
  have hil : i < frames.length := acceptsAt_lt_length cfg mode rms thr frames i hi
  have hfri : frames.get? i = some (frames.get ⟨i, hil⟩) := List.get?_eq_get hil
  have hfrj : frames.get? j = some (frames.get ⟨j, hjl⟩) := List.get?_eq_get hjl
  have hacci := (acceptsAt_iff_of_get cfg mode rms thr frames i _ hfri).mp hi
  have haccj := (acceptsAt_iff_of_get cfg mode rms thr frames j _ hfrj).mp hj
  have h1 : (stateAt cfg mode rms thr frames (i + 1)).fss = 1 := by
    rw [stateAt_succ_of_get cfg mode rms thr frames i _ hfri, stepState_fss, if_pos hacci]
  have h2 : (stateAt cfg mode rms thr frames j).fss =
      (stateAt cfg mode rms thr frames (i + 1)).fss + ((j - (i + 1) : ℕ) : ℤ) :=
    fss_between cfg mode rms thr frames (i + 1) j (by omega) (le_of_lt hjl)
      (fun k hk1 hk2 => hno k (by omega) hk2)
  have h3 : cfg.min_switch_frames ≤ (stateAt cfg mode rms thr frames j).fss :=
    haccj.2.2.2.2
  rw [h2, h1] at h3
  have h4 : ((j - (i + 1) : ℕ) : ℤ) = (j : ℤ) - i - 1 := by omega
  omega

/-- Witness for C3: with `min_switch_frames = 2`, switches are accepted at
frames 0 and 2 (and refused at frame 1) on a three-frame clip. -/
theorem c3_min_switch_interval_witness :
    ((0 : ℕ) < 2 ∧ acceptsAt cfgA "face" none none framesA 0 ∧
      acceptsAt cfgA "face" none none framesA 2 ∧
      ∀ k, 0 < k → k < 2 → ¬ acceptsAt cfgA "face" none none framesA k) ∧
    (cfgA.min_switch_frames ≤ (2 : ℤ) - (0 : ℤ) ∧
      (acceptP cfgA "face" none none (initState cfgA) frA →
        (stepState cfgA "face" none none (initState cfgA) frA).fss = 1) ∧
      (¬ acceptP cfgA "face" none none (initState cfgA) frA →
        (stepState cfgA "face" none none (initState cfgA) frA).fss =
          (initState cfgA).fss + 1)) := by
  have hno : ∀ k, 0 < k → k < 2 → ¬ acceptsAt cfgA "face" none none framesA k := by
    intro k hk1 hk2
    have hk : k = 1 := by omega
    subst hk
    with_unfolding_all decide
  refine ⟨⟨by decide, by with_unfolding_all decide, by with_unfolding_all decide, hno⟩, ?_⟩
  exact c3_min_switch_interval cfgA "face" none none framesA 0 2 (initState cfgA) frA
    (by decide) (by with_unfolding_all decide) (by with_unfolding_all decide) hno

/-- Claim C4: the fixed crop size follows the source-aspect versus
target-ratio comparison (full height and `round(in_h * ratio)` width when
the source is wider than the target, full width and `round(in_w / ratio)`
height otherwise), and a 1920 by 1080 source with target aspect 9:16
yields a 608 by 1080 crop. -/
theorem c4_crop_size (in_w in_h : ℤ) (ar : ℚ) (_hw : 0 < in_w) (_hh : 0 < in_h) :
    ((in_w : ℚ) / (in_h : ℚ) > ar →
      cropSizeRaw in_w in_h ar = (pyRound ((in_h : ℚ) * ar), in_h)) ∧
    (¬ (in_w : ℚ) / (in_h : ℚ) > ar →
      cropSizeRaw in_w in_h ar = (in_w, pyRound ((in_w : ℚ) / ar))) ∧
    cropSize cfg1920 = (608, 1080) := by
  refine ⟨fun hgt => by rw [cropSizeRaw, if_pos hgt],
    fun hle => by rw [cropSizeRaw, if_neg hle], ?_⟩
  with_unfolding_all decide

/-- Witness for C4 at the 1920 by 1080 source. -/
theorem c4_crop_size_witness :
    ((0 : ℤ) < 1920 ∧ (0 : ℤ) < 1080) ∧
    (((1920 : ℤ) : ℚ) / ((1080 : ℤ) : ℚ) > 9/16 →
      cropSizeRaw 1920 1080 (9/16) = (pyRound (((1080 : ℤ) : ℚ) * (9/16)), 1080)) ∧
    (¬ ((1920 : ℤ) : ℚ) / ((1080 : ℤ) : ℚ) > 9/16 →
      cropSizeRaw 1920 1080 (9/16) = (1920, pyRound (((1920 : ℤ) : ℚ) / (9/16)))) ∧
    cropSize cfg1920 = (608, 1080) :=
  ⟨⟨by decide, by decide⟩, c4_crop_size 1920 1080 (9/16) (by decide) (by decide)⟩

/-- Claim C5: on any frame, for each axis independently, if the tracked
target is within the deadzone of the smoothed center at the moment the
smoothing update is evaluated, that axis of the smoothed center is
unchanged by the frame. -/
theorem c5_deadzone_freeze (cfg : Cfg) (s : LoopState) (t : ℚ × ℚ)
    (hmm : 0 ≤ cfg.max_move_px_per_sec) (hld : s.last_det = some t) :
    (|t.1 - s.cx| < (cfg.deadzone_px : ℚ) → (smoothPhase cfg s).cx = s.cx) ∧
    (|t.2 - s.cy| < (cfg.deadzone_px : ℚ) → (smoothPhase cfg s).cy = s.cy) := by
  have hm : 0 ≤ maxPerFrame cfg := by
    unfold maxPerFrame
    apply div_nonneg hmm
    have h1 : (1 : ℚ) ≤ max 1 cfg.fps := le_max_left 1 cfg.fps
    linarith
  constructor
  · intro hdx
    simp only [smoothPhase, hld]
    exact smoothAxis_deadzone _ _ _ _ _ hm hdx
  · intro hdy
    simp only [smoothPhase, hld]
    exact smoothAxis_deadzone _ _ _ _ _ hm hdy

/-- Witness for C5: a target 10 px right and 5 px up of the center, both
inside the 28 px deadzone, leaves the center untouched. -/
theorem c5_deadzone_freeze_witness :
    (0 ≤ cfgA.max_move_px_per_sec ∧ sC5.last_det = some (60, 45) ∧
      |(60 : ℚ) - sC5.cx| < (cfgA.deadzone_px : ℚ) ∧
      |(45 : ℚ) - sC5.cy| < (cfgA.deadzone_px : ℚ)) ∧
    (smoothPhase cfgA sC5).cx = sC5.cx ∧ (smoothPhase cfgA sC5).cy = sC5.cy := by
  have h := c5_deadzone_freeze cfgA sC5 (60, 45) (by with_unfolding_all decide) rfl
  exact ⟨⟨by with_unfolding_all decide, rfl, by with_unfolding_all decide,
      by with_unfolding_all decide⟩,
    h.1 (by with_unfolding_all decide), h.2 (by with_unfolding_all decide)⟩

/-- Claim C7: if audio extraction or analysis fails in speaker mode, the
run degrades to face mode with the audio signal and threshold cleared, and
the clip is still processed to completion exactly as a face-mode run. -/
theorem c7_audio_failure_degrades (cfg : Cfg) (e : String)
    (audio2 : Except String (List ℚ)) (frames : List Frame) :
    audioInit "speaker" (Except.error e) = ("face", none, none) ∧
    smart_follow_crop cfg "speaker" (Except.error e) frames =
      smart_follow_crop cfg "face" audio2 frames := by
  constructor
  · rfl
  · rfl

/-- Claim C10: with a non-empty RMS signal the speaker-mode audio lookup
index `min(len(rms) - 1, frame_idx)` is always within bounds, for any
frame index, so the lookup never reads a default. -/
theorem c10_rms_index_in_bounds (rms : List ℚ) (i : ℕ) (h : rms ≠ []) :
    ∃ hlt : rmsIndex rms.length i < rms.length,
      rms.getD (rmsIndex rms.length i) 0 = rms.get ⟨rmsIndex rms.length i, hlt⟩ := by
  have hn : 0 < rms.length := List.length_pos.mpr h
  have hlt : rmsIndex rms.length i < rms.length := by
    unfold rmsIndex
    omega
  refine ⟨hlt, ?_⟩
  rw [List.getD_eq_getElem rms 0 hlt, List.get_eq_getElem]

/-- Witness for C10: a two-bucket signal indexed at video frame 5. -/
theorem c10_rms_index_in_bounds_witness :
    ([(1 : ℚ), 2] ≠ [] ∧ rmsIndex ([(1 : ℚ), 2]).length 5 = 1) ∧
    ∃ hlt : rmsIndex ([(1 : ℚ), 2]).length 5 < ([(1 : ℚ), 2]).length,
      ([(1 : ℚ), 2]).getD (rmsIndex ([(1 : ℚ), 2]).length 5) 0 =
        ([(1 : ℚ), 2]).get ⟨rmsIndex ([(1 : ℚ), 2]).length 5, hlt⟩ :=
  ⟨⟨by decide, by decide⟩, c10_rms_index_in_bounds [(1 : ℚ), 2] 5 (by decide)⟩


/-- Claim C6 counterexample: a single candidate whose stability penalty
drives its score below the `-1e18` sentinel is not selected at all, so the
scorer does not always select the score-maximizing candidate of a
non-empty list. -/
theorem c6_counterexample :
    frFar.faces ≠ [] ∧
    pick_face cfgA "face" none none (initState cfgA) frFar = none := by
  with_unfolding_all decide

/-- Claim C6 (amended): whenever some candidate scores above the `-1e18`
sentinel, `_pick_face` returns the center of the first candidate attaining
the maximal score (score as in `faceScore`: speaker-mode
`mouthMotion * (8 if voiced else 2) + area * 0.00002`, face-mode `area`,
both minus `0.0008 *` squared distance to the tracked center); ties are
broken by encounter order. -/
theorem c6_first_argmax (cfg : Cfg) (mode : String) (rms : Option (List ℚ))
    (thr : Option ℚ) (s : LoopState) (fr : Frame)
    (h : ∃ b ∈ fr.faces, sentinel < faceScore cfg mode rms thr s fr b) :
    ∃ i, ∃ hi : i < fr.faces.length,
      pick_face cfg mode rms thr s fr = some (boxCenter (fr.faces.get ⟨i, hi⟩)) ∧
      (∀ j (hj : j < fr.faces.length),
        faceScore cfg mode rms thr s fr (fr.faces.get ⟨j, hj⟩) ≤
          faceScore cfg mode rms thr s fr (fr.faces.get ⟨i, hi⟩)) ∧
      (∀ j (hj : j < fr.faces.length), j < i →
        faceScore cfg mode rms thr s fr (fr.faces.get ⟨j, hj⟩) <
          faceScore cfg mode rms thr s fr (fr.faces.get ⟨i, hi⟩)) := by
  obtain ⟨i, hi, heq, _hgt, hmax, hfirst⟩ :=
    pickGo_argmax (faceScore cfg mode rms thr s fr) fr.faces none sentinel h
  exact ⟨i, hi, heq, hmax, hfirst⟩

/-- Witness for the amended C6 on a two-candidate frame. -/
theorem c6_first_argmax_witness :
    (∃ b ∈ frTwo.faces,
      sentinel < faceScore cfgA "face" none none (initState cfgA) frTwo b) ∧
    ∃ i, ∃ hi : i < frTwo.faces.length,
      pick_face cfgA "face" none none (initState cfgA) frTwo =
        some (boxCenter (frTwo.faces.get ⟨i, hi⟩)) ∧
      (∀ j (hj : j < frTwo.faces.length),
        faceScore cfgA "face" none none (initState cfgA) frTwo (frTwo.faces.get ⟨j, hj⟩) ≤
          faceScore cfgA "face" none none (initState cfgA) frTwo (frTwo.faces.get ⟨i, hi⟩)) ∧
      (∀ j (hj : j < frTwo.faces.length), j < i →
        faceScore cfgA "face" none none (initState cfgA) frTwo (frTwo.faces.get ⟨j, hj⟩) <
          faceScore cfgA "face" none none (initState cfgA) frTwo (frTwo.faces.get ⟨i, hi⟩)) :=
  ⟨by with_unfolding_all decide,
    c6_first_argmax cfgA "face" none none (initState cfgA) frTwo
      (by with_unfolding_all decide)⟩

/-- Claim C8: `hold` changes only on sampled frames: a sampled frame with
an accepted switch resets it to `hold_frames`, a sampled frame without one
moves it to `max(0, hold - 1)`, and an unsampled frame leaves it
untouched. -/
theorem c8_hold_update (cfg : Cfg) (mode : String) (rms : Option (List ℚ))
    (thr : Option ℚ) (frames : List Frame) (k : ℕ) (fr : Frame)
    (hfr : frames.get? k = some fr) (hhf : 0 ≤ cfg.hold_frames) :
    (k % strideN cfg = 0 →
      (acceptP cfg mode rms thr (stateAt cfg mode rms thr frames k) fr →
        (stateAt cfg mode rms thr frames (k + 1)).hold = cfg.hold_frames) ∧
      (¬ acceptP cfg mode rms thr (stateAt cfg mode rms thr frames k) fr →
        (stateAt cfg mode rms thr frames (k + 1)).hold =
          max 0 ((stateAt cfg mode rms thr frames k).hold - 1))) ∧
    (¬ k % strideN cfg = 0 →
      (stateAt cfg mode rms thr frames (k + 1)).hold =
        (stateAt cfg mode rms thr frames k).hold) := by
  have hkl : k < frames.length := by
    by_contra hk
    push_neg at hk
    rw [List.get?_eq_none.mpr hk] at hfr
    exact Option.noConfusion hfr
  have hidx : (stateAt cfg mode rms thr frames k).idx = k :=
    stateAt_idx cfg mode rms thr frames k (le_of_lt hkl)
  have hs0 : 0 ≤ (stateAt cfg mode rms thr frames k).hold :=
    stateAt_hold_nonneg cfg mode rms thr frames hhf k
  constructor
  · intro hk0
    constructor
    · intro ha
      rw [stateAt_succ_of_get cfg mode rms thr frames k fr hfr, stepState_hold]
      exact selectPhase_hold_sampled_accept cfg mode rms thr _ fr ha
    · intro hna
      rw [stateAt_succ_of_get cfg mode rms thr frames k fr hfr, stepState_hold]
      exact selectPhase_hold_sampled_noaccept cfg mode rms thr _ fr hs0
        (by rw [hidx]; exact hk0) hna
  · intro hk0
    rw [stateAt_succ_of_get cfg mode rms thr frames k fr hfr, stepState_hold]
    exact selectPhase_hold_unsampled cfg mode rms thr _ fr (by rw [hidx]; exact hk0)

/-- Witness for C8 at frame 1 of the three-frame clip (a sampled frame on
which no switch is accepted). -/
theorem c8_hold_update_witness :
    (framesA.get? 1 = some frA ∧ 0 ≤ cfgA.hold_frames) ∧
    ((1 % strideN cfgA = 0 →
      (acceptP cfgA "face" none none (stateAt cfgA "face" none none framesA 1) frA →
        (stateAt cfgA "face" none none framesA (1 + 1)).hold = cfgA.hold_frames) ∧
      (¬ acceptP cfgA "face" none none (stateAt cfgA "face" none none framesA 1) frA →
        (stateAt cfgA "face" none none framesA (1 + 1)).hold =
          max 0 ((stateAt cfgA "face" none none framesA 1).hold - 1))) ∧
    (¬ 1 % strideN cfgA = 0 →
      (stateAt cfgA "face" none none framesA (1 + 1)).hold =
        (stateAt cfgA "face" none none framesA 1).hold)) :=
  ⟨⟨rfl, by decide⟩,
    c8_hold_update cfgA "face" none none framesA 1 frA rfl (by decide)⟩

/-- Claim C9: once a tracked target has been accepted (`last_det` is
non-`None`), it is never reset to `None` for the rest of the clip, and a
frame with zero detections leaves the tracked target unchanged even when
`hold` is 0. -/
theorem c9_target_persistence (cfg : Cfg) (mode : String) (rms : Option (List ℚ))
    (thr : Option ℚ) (frames : List Frame) (k kp : ℕ) (s : LoopState) (fr : Frame)
    (hkk : k ≤ kp) (h : (stateAt cfg mode rms thr frames k).last_det ≠ none)
    (hfe : fr.faces = []) :
    (stateAt cfg mode rms thr frames kp).last_det ≠ none ∧
    (stepState cfg mode rms thr s fr).last_det = s.last_det := by
  refine ⟨stateAt_last_det_mono cfg mode rms thr frames k kp hkk h, ?_⟩
  rw [stepState_last_det]
  exact selectPhase_last_det_empty cfg mode rms thr s fr hfe

/-- Witness for C9: the target accepted on frame 0 is still present at
frame 3, and an empty-detection frame leaves the target of a state with
`hold = 0` unchanged. -/
theorem c9_target_persistence_witness :
    ((1 : ℕ) ≤ 3 ∧ (stateAt cfgA "face" none none framesA 1).last_det ≠ none ∧
      frEmpty.faces = []) ∧
    (stateAt cfgA "face" none none framesA 3).last_det ≠ none ∧
    (stepState cfgA "face" none none (initState cfgA) frEmpty).last_det =
      (initState cfgA).last_det :=
  ⟨⟨by decide, by with_unfolding_all decide, rfl⟩,
    c9_target_persistence cfgA "face" none none framesA 1 3 (initState cfgA) frEmpty
      (by decide) (by with_unfolding_all decide) rfl⟩

end JusClipIt
